import Mathlib

/-!
Verification of the AI_Documentation_Agent repository against its
natural-language specification.

The Python sources are shallowly embedded: pure functions become Lean
functions, Python dicts become association lists with insert-or-overwrite
semantics, fallible code (code that can raise) returns `Option`/`Except`,
and the file system is an explicit inductive tree supplied as input.
Strings are Lean `String`s, with the handful of Python string operations
the code uses (strip, split, replace, startswith, sorting) re-implemented
over `List Char` so that every definition evaluates by kernel reduction.
-/

/-! ## String utilities (Python `str` operations used by the sources) -/

/-- Lexicographic comparison of character lists by code point, the order
Python's `sorted` uses on `str` values. -/
def lexLe : List Char → List Char → Bool
  | [], _ => true
  | _ :: _, [] => false
  | a :: as, b :: bs => if a < b then true else if b < a then false else lexLe as bs

/-- Python `a <= b` on strings. -/
def strLe (a b : String) : Bool := lexLe a.data b.data

/-- The ordering proposition used to state sortedness of string lists. -/
def strLeProp (a b : String) : Prop := strLe a b = true

instance : DecidableRel strLeProp :=
  fun a b => inferInstanceAs (Decidable (strLe a b = true))

theorem lexLe_total : ∀ a b : List Char, lexLe a b = true ∨ lexLe b a = true := by
  intro a
  induction a with
  | nil => intro b; left; rfl
  | cons x xs ih =>
    intro b
    cases b with
    | nil => right; rfl
    | cons y ys =>
      by_cases hxy : x < y
      · left; simp [lexLe, hxy]
      · by_cases hyx : y < x
        · right; simp [lexLe, hyx]
        · cases ih ys with
          | inl h => left; simp [lexLe, hxy, hyx, h]
          | inr h => right; simp [lexLe, hxy, hyx, h]

theorem lexLe_trans : ∀ a b c : List Char,
    lexLe a b = true → lexLe b c = true → lexLe a c = true := by
  intro a
  induction a with
  | nil => intro b c _ _; rfl
  | cons x xs ih =>
    intro b c hab hbc
    match b, c with
    | [], _ => simp [lexLe] at hab
    | y :: ys, [] => simp [lexLe] at hbc
    | y :: ys, z :: zs =>
      simp only [lexLe] at hab hbc ⊢
      rcases lt_trichotomy x y with hxy | hxy | hxy
      · rcases lt_trichotomy y z with hyz | hyz | hyz
        · rw [if_pos (lt_trans hxy hyz)]
        · subst hyz; rw [if_pos hxy]
        · rw [if_neg (not_lt.mpr (le_of_lt hyz)), if_pos hyz] at hbc
          exact absurd hbc Bool.false_ne_true
      · subst hxy
        rcases lt_trichotomy x z with hxz | hxz | hxz
        · rw [if_pos hxz]
        · subst hxz
          rw [if_neg (lt_irrefl x), if_neg (lt_irrefl x)] at hab hbc ⊢
          exact ih _ _ hab hbc
        · rw [if_neg (not_lt.mpr (le_of_lt hxz)), if_pos hxz] at hbc
          exact absurd hbc Bool.false_ne_true
      · rw [if_neg (not_lt.mpr (le_of_lt hxy)), if_pos hxy] at hab
        exact absurd hab Bool.false_ne_true

instance : IsTotal String strLeProp :=
  ⟨fun a b => lexLe_total a.data b.data⟩

instance : IsTrans String strLeProp :=
  ⟨fun a b c => lexLe_trans a.data b.data c.data⟩

/-- Python `sorted` on a list of strings. -/
def sortStrings (l : List String) : List String := List.insertionSort strLeProp l

theorem sortStrings_sorted (l : List String) : List.Sorted strLeProp (sortStrings l) :=
  List.sorted_insertionSort strLeProp l

theorem mem_sortStrings {l : List String} {x : String} : x ∈ sortStrings l ↔ x ∈ l :=
  List.mem_insertionSort strLeProp

/-- Python whitespace characters recognized by `str.strip()`. -/
def isPyWhitespace (c : Char) : Bool :=
  c = ' ' || c = '\t' || c = '\n' || c = '\x0d' || c = '\x0b' || c = '\x0c'

/-- Python `s.strip()`: drop leading and trailing whitespace. -/
def pyStrip (s : String) : String :=
  ⟨((s.data.dropWhile isPyWhitespace).reverse.dropWhile isPyWhitespace).reverse⟩

/-- Does `pat` occur as a contiguous sublist of `l`?  Models Python's
`pat in s` substring test. -/
def charsContain (l pat : List Char) : Bool :=
  match l with
  | [] => pat.isPrefixOf []
  | _ :: rest => pat.isPrefixOf l || charsContain rest pat

/-- Python `pat in s` on strings. -/
def strContains (s pat : String) : Bool := charsContain s.data pat.data

/-- Python `s.startswith(p)`. -/
def strStartsWith (s p : String) : Bool := p.data.isPrefixOf s.data

/-- Python `s.endswith(p)`. -/
def strEndsWith (s p : String) : Bool := p.data.reverse.isPrefixOf s.data.reverse

/-- Helper of `strSplit`: splits a character list on every occurrence of a
(nonempty) separator; fueled so that it evaluates by kernel reduction. -/
def charsSplit (sep : List Char) : Nat → List Char → List (List Char)
  | _, [] => [[]]
  | 0, l => [l]
  | fuel + 1, c :: rest =>
    if sep.isPrefixOf (c :: rest) ∧ sep ≠ [] then
      [] :: charsSplit sep fuel (List.drop sep.length (c :: rest))
    else
      match charsSplit sep fuel rest with
      | [] => [[c]]
      | g :: gs => (c :: g) :: gs

/-- Python `s.split(sep)` for a nonempty separator. -/
def strSplit (s sep : String) : List String :=
  (charsSplit sep.data s.data.length s.data).map (fun cs => ⟨cs⟩)

/-- Helper of `strReplace`: replaces every occurrence of `pat` by `rep`;
fueled so that it evaluates by kernel reduction. -/
def charsReplace (pat rep : List Char) : Nat → List Char → List Char
  | _, [] => []
  | 0, l => l
  | fuel + 1, c :: rest =>
    if pat.isPrefixOf (c :: rest) ∧ pat ≠ [] then
      rep ++ charsReplace pat rep fuel (List.drop pat.length (c :: rest))
    else
      c :: charsReplace pat rep fuel rest

/-- Python `s.replace(pat, rep)` for a nonempty pattern. -/
def strReplace (s pat rep : String) : String :=
  ⟨charsReplace pat.data rep.data s.data.length s.data⟩

/-! ## Python dicts as association lists

Python dict assignment `d[k] = v` overwrites in place when the key is
present and appends otherwise; iteration follows insertion order. -/

/-- Python `d[k] = v` on an association list. -/
def dictInsert {α : Type} (d : List (String × α)) (k : String) (v : α) : List (String × α) :=
  match d with
  | [] => [(k, v)]
  | (k0, v0) :: rest =>
    if k0 = k then (k, v) :: rest else (k0, v0) :: dictInsert rest k v

/-- Python `d.get(k)` / `d[k]`-with-presence-check on an association list. -/
def dictGet {α : Type} (d : List (String × α)) (k : String) : Option α :=
  match d with
  | [] => none
  | (k0, v0) :: rest => if k0 = k then some v0 else dictGet rest k

/-- Python `k in d` on an association list. -/
def dictHasKey {α : Type} (d : List (String × α)) (k : String) : Bool :=
  (dictGet d k).isSome

/-- The keys of an association list, in insertion order. -/
def dictKeys {α : Type} (d : List (String × α)) : List String := d.map Prod.fst

theorem dictGet_insert_self {α : Type} (d : List (String × α)) (k : String) (v : α) :
    dictGet (dictInsert d k v) k = some v := by
  induction d with
  | nil => simp [dictInsert, dictGet]
  | cons hd tl ih =>
    obtain ⟨k0, v0⟩ := hd
    by_cases h : k0 = k
    · subst h; simp [dictInsert, dictGet]
    · simp [dictInsert, dictGet, h, ih]

theorem dictGet_insert_ne {α : Type} (d : List (String × α)) (k k1 : String) (v : α)
    (h : k1 ≠ k) : dictGet (dictInsert d k v) k1 = dictGet d k1 := by
  induction d with
  | nil =>
    simp only [dictInsert, dictGet]
    rw [if_neg (fun he => h he.symm)]
  | cons hd tl ih =>
    obtain ⟨k0, v0⟩ := hd
    by_cases h0 : k0 = k
    · subst h0
      simp only [dictInsert, if_pos rfl, dictGet]
      rw [if_neg (fun he => h he.symm), if_neg (fun he => h he.symm)]
    · simp only [dictInsert, if_neg h0, dictGet]
      by_cases h1 : k0 = k1
      · rw [if_pos h1, if_pos h1]
      · rw [if_neg h1, if_neg h1, ih]

/-! ## JSON values and a JSON parser (model of Python's `json` module)

The model covers JSON null, booleans, integers, strings, arrays and
objects; float literals are outside the model. -/

inductive Json where
  | null : Json
  | bool (b : Bool) : Json
  | num (n : Int) : Json
  | str (s : String) : Json
  | arr (elems : List Json) : Json
  | obj (fields : List (String × Json)) : Json

/-- Python truthiness of a decoded JSON value (`None`, `False`, `0`, `""`,
`[]` and the empty dict are falsy). -/
def jsonTruthy : Json → Bool
  | .null => false
  | .bool b => b
  | .num n => n != 0
  | .str s => s != ""
  | .arr es => !es.isEmpty
  | .obj fs => !fs.isEmpty

def isJsonWs (c : Char) : Bool := c = ' ' || c = '\t' || c = '\n' || c = '\x0d'

def skipJsonWs : List Char → List Char
  | [] => []
  | c :: rest => if isJsonWs c then skipJsonWs rest else c :: rest

/-- Parse a run of decimal digits into a natural number. -/
def parseDigits (cs : List Char) : Option (Nat × List Char) :=
  let ds := cs.takeWhile Char.isDigit
  if ds.isEmpty then none
  else some (ds.foldl (fun acc c => acc * 10 + (c.toNat - 48)) 0, cs.dropWhile Char.isDigit)

/-- Parse a JSON string body (after the opening quote), handling the basic
escape sequences. -/
def parseJsonStringBody : List Char → Option (List Char × List Char)
  | [] => none
  | '"' :: rest => some ([], rest)
  | '\\' :: e :: rest =>
    let esc : Option Char :=
      if e = 'n' then some '\n'
      else if e = 't' then some '\t'
      else if e = 'r' then some '\x0d'
      else if e = '"' then some '"'
      else if e = '\\' then some '\\'
      else if e = '/' then some '/'
      else none
    match esc with
    | none => none
    | some c =>
      match parseJsonStringBody rest with
      | none => none
      | some (s, r) => some (c :: s, r)
  | c :: rest =>
    match parseJsonStringBody rest with
    | none => none
    | some (s, r) => some (c :: s, r)

mutual

/-- Fueled recursive-descent parser for a JSON value. -/
def parseJsonValue : Nat → List Char → Option (Json × List Char)
  | 0, _ => none
  | fuel + 1, cs =>
    match skipJsonWs cs with
    | [] => none
    | 'n' :: rest =>
      if ['u', 'l', 'l'].isPrefixOf rest then some (.null, rest.drop 3) else none
    | 't' :: rest =>
      if ['r', 'u', 'e'].isPrefixOf rest then some (.bool true, rest.drop 3) else none
    | 'f' :: rest =>
      if ['a', 'l', 's', 'e'].isPrefixOf rest then some (.bool false, rest.drop 4) else none
    | '"' :: rest =>
      match parseJsonStringBody rest with
      | none => none
      | some (s, r) => some (.str ⟨s⟩, r)
    | '-' :: rest =>
      match parseDigits rest with
      | none => none
      | some (n, r) => some (.num (-(n : Int)), r)
    | '[' :: rest => parseJsonArrayItems fuel (skipJsonWs rest) true
    | '{' :: rest => parseJsonObjectItems fuel (skipJsonWs rest) true
    | c :: rest =>
      if c.isDigit then
        match parseDigits (c :: rest) with
        | none => none
        | some (n, r) => some (.num (n : Int), r)
      else none

/-- Parses the items of a JSON array after the opening bracket.  `first`
records whether no item has been consumed yet (so `]` may follow directly). -/
def parseJsonArrayItems : Nat → List Char → Bool → Option (Json × List Char)
  | 0, _, _ => none
  | fuel + 1, cs, first =>
    match skipJsonWs cs with
    | ']' :: rest => if first then some (.arr [], rest) else none
    | cs1 =>
      match parseJsonValue fuel cs1 with
      | none => none
      | some (v, r) =>
        match skipJsonWs r with
        | ',' :: rest =>
          match parseJsonArrayItems fuel rest false with
          | some (.arr vs, r2) => some (.arr (v :: vs), r2)
          | _ => none
        | ']' :: rest => some (.arr [v], rest)
        | _ => none

/-- Parses the items of a JSON object after the opening brace. -/
def parseJsonObjectItems : Nat → List Char → Bool → Option (Json × List Char)
  | 0, _, _ => none
  | fuel + 1, cs, first =>
    match skipJsonWs cs with
    | '}' :: rest => if first then some (.obj [], rest) else none
    | '"' :: cs1 =>
      match parseJsonStringBody cs1 with
      | none => none
      | some (k, r) =>
        match skipJsonWs r with
        | ':' :: r1 =>
          match parseJsonValue fuel r1 with
          | none => none
          | some (v, r2) =>
            match skipJsonWs r2 with
            | ',' :: rest =>
              match parseJsonObjectItems fuel rest false with
              | some (.obj fs, r3) => some (.obj ((⟨k⟩, v) :: fs), r3)
              | _ => none
            | '}' :: rest => some (.obj [(⟨k⟩, v)], rest)
            | _ => none
        | _ => none
    | _ => none

end

/-- Model of Python `json.loads`: `none` models a raised `JSONDecodeError`. -/
def jsonLoads (s : String) : Option Json :=
  match parseJsonValue (s.length + 1) s.data with
  | none => none
  | some (v, rest) => if (skipJsonWs rest).isEmpty then some v else none

/-! ## Data models (`models/parsed_file.py`, `models/metadata.py`,
`models/change_report.py`, `models.py`) -/

/-- Model of `datetime`: the code only ever converts timestamps through
`isoformat` / `fromisoformat`, which are inverse at the precision kept by
that pair (the spec grants this); a datetime is therefore represented by its
ISO-8601 rendering. -/
structure PyDatetime where
  iso : String
deriving DecidableEq

structure ModuleSummary where
  file_path : String
  purpose : String
  responsibilities : List String
  key_components : List String
  dependencies : List String
deriving DecidableEq

/-- `ModuleSummary.to_dict`. -/
def ModuleSummary.to_dict (s : ModuleSummary) : Json :=
  .obj [("file_path", .str s.file_path),
        ("purpose", .str s.purpose),
        ("responsibilities", .arr (s.responsibilities.map .str)),
        ("key_components", .arr (s.key_components.map .str)),
        ("dependencies", .arr (s.dependencies.map .str))]

def jsonAsString : Json → Option String
  | .str s => some s
  | _ => none

/-- Effectful map over `Option`, written out so that it evaluates by kernel
reduction. -/
def mapMOption {α β : Type} (g : α → Option β) : List α → Option (List β)
  | [] => some []
  | a :: rest =>
    match g a with
    | none => none
    | some b =>
      match mapMOption g rest with
      | none => none
      | some bs => some (b :: bs)

def jsonAsStringList : Json → Option (List String)
  | .arr es => mapMOption jsonAsString es
  | _ => none

def jsonAsInt : Json → Option Int
  | .num n => some n
  | _ => none

/-- `ModuleSummary.from_dict`: each `data[...]` access raises `KeyError`
when the key is missing (modelled by `none`); the decoded values are checked
against the field shapes they always have after `to_dict`. -/
def ModuleSummary.from_dict : Json → Option ModuleSummary
  | .obj fields => do
    let fp ← dictGet fields "file_path" >>= jsonAsString
    let pur ← dictGet fields "purpose" >>= jsonAsString
    let resp ← dictGet fields "responsibilities" >>= jsonAsStringList
    let kc ← dictGet fields "key_components" >>= jsonAsStringList
    let dep ← dictGet fields "dependencies" >>= jsonAsStringList
    pure ⟨fp, pur, resp, kc, dep⟩
  | _ => none

structure FileMetadata where
  file_path : String
  hash : String
  last_analyzed : PyDatetime
  size_bytes : Int
  summary : Option ModuleSummary
deriving DecidableEq

structure ProjectMetadata where
  project_name : String
  project_root : String
  last_updated : PyDatetime
  files : List (String × FileMetadata)
deriving DecidableEq

/-- The per-file object built inside `ProjectMetadata.to_json`. -/
def FileMetadata.entry_to_json (fm : FileMetadata) : Json :=
  .obj [("file_path", .str fm.file_path),
        ("hash", .str fm.hash),
        ("last_analyzed", .str fm.last_analyzed.iso),
        ("size_bytes", .num fm.size_bytes),
        ("summary", match fm.summary with
          | some s => s.to_dict
          | none => .null)]

/-- `ProjectMetadata.to_json`. -/
def ProjectMetadata.to_json (m : ProjectMetadata) : Json :=
  .obj [("project_name", .str m.project_name),
        ("project_root", .str m.project_root),
        ("last_updated", .str m.last_updated.iso),
        ("files", .obj (m.files.map (fun p => (p.1, p.2.entry_to_json))))]

/-- The per-file decoding inside `ProjectMetadata.from_json`; the guard on
the summary is Python truthiness of `fm["summary"]`
(`... if fm["summary"] else None`). -/
def FileMetadata.entry_from_json : Json → Option FileMetadata
  | .obj fields => do
    let fp ← dictGet fields "file_path" >>= jsonAsString
    let h ← dictGet fields "hash" >>= jsonAsString
    let la ← dictGet fields "last_analyzed" >>= jsonAsString
    let sz ← dictGet fields "size_bytes" >>= jsonAsInt
    let sj ← dictGet fields "summary"
    let summ ← if jsonTruthy sj then (ModuleSummary.from_dict sj).map some else some none
    pure ⟨fp, h, ⟨la⟩, sz, summ⟩
  | _ => none

/-- `ProjectMetadata.from_json`. -/
def ProjectMetadata.from_json : Json → Option ProjectMetadata
  | .obj fields => do
    let pn ← dictGet fields "project_name" >>= jsonAsString
    let pr ← dictGet fields "project_root" >>= jsonAsString
    let lu ← dictGet fields "last_updated" >>= jsonAsString
    let fj ← dictGet fields "files"
    match fj with
    | .obj entries => do
      let fl ← mapMOption (fun p =>
        (FileMetadata.entry_from_json p.2).map (fun fm => (p.1, fm))) entries
      pure ⟨pn, pr, ⟨lu⟩, fl⟩
    | _ => none
  | _ => none

structure ChangeReport where
  added_files : List String
  modified_files : List String
  deleted_files : List String
  unchanged_files : List String
deriving DecidableEq

/-- `ChangeReport.has_changes`. -/
def ChangeReport.has_changes (r : ChangeReport) : Bool :=
  !(r.added_files.isEmpty && r.modified_files.isEmpty && r.deleted_files.isEmpty)

/-- `ChangeReport.files_to_analyze`. -/
def ChangeReport.files_to_analyze (r : ChangeReport) : List String :=
  r.added_files ++ r.modified_files

structure FunctionInfo where
  name : String
  params : List String
  returns : Option String
  docstring : Option String
deriving DecidableEq

structure ClassInfo where
  name : String
  docstring : Option String
  methods : List FunctionInfo
deriving DecidableEq

structure ParsedFile where
  file_path : String
  module_docstring : Option String
  imports : List String
  classes : List ClassInfo
  functions : List FunctionInfo
deriving DecidableEq

/-! ## `core/parser.py`: parameter extraction -/

/-- `models/schemas.py` `Parameter`. -/
structure Parameter where
  name : String
  type_hint : Option String
  default_value : Option String
deriving DecidableEq

/-- One entry of `ast.arguments.args` / `vararg` / `kwarg`: the parameter
name and its annotation already rendered to text (the source renders it with
`_annotation_to_string` when present). -/
structure PyArg where
  arg : String
  annot : Option String
deriving DecidableEq

/-- The `ast.arguments` data `_extract_parameters` consumes; each default
expression is represented by its `_node_to_string` rendering. -/
structure PyArguments where
  args : List PyArg
  defaults : List String
  vararg : Option PyArg
  kwarg : Option PyArg
deriving DecidableEq

/-- `CodeParser._extract_parameters`. -/
def extract_parameters (a : PyArguments) : List Parameter :=
  let defaults_offset : Int := (a.args.length : Int) - (a.defaults.length : Int)
  let regular := a.args.enum.map (fun p =>
    let default_idx : Int := (p.1 : Int) - defaults_offset
    let default_value : Option String :=
      if 0 ≤ default_idx ∧ default_idx < (a.defaults.length : Int) then
        some (a.defaults.getD default_idx.toNat "")
      else none
    Parameter.mk p.2.arg p.2.annot default_value)
  let withVararg := regular ++ (match a.vararg with
    | some va => [Parameter.mk ("*" ++ va.arg) va.annot none]
    | none => [])
  withVararg ++ (match a.kwarg with
    | some kw => [Parameter.mk ("**" ++ kw.arg) kw.annot none]
    | none => [])

/-! ## Scanner (`core/scanner.py`, `scanner.py`, `config.py`) -/

structure ScannerConfig where
  ignore_dirs : List String
  include_extensions : List String
  ignore_files : List String
  max_file_size : Nat
deriving DecidableEq

/-- The `ScannerConfig` defaults from `config.py`. -/
def defaultScannerConfig : ScannerConfig :=
  ⟨["__pycache__", ".git", ".github", ".venv", "venv", "env", "node_modules",
    ".idea", ".vscode", "dist", "build", "egg-info", ".tox", ".pytest_cache",
    ".mypy_cache", ".coverage", "htmlcov"],
   [".py"],
   ["__init__.py", "setup.py", "conftest.py"],
   100000⟩

/-- `pathlib.Path.suffix` of a file name: the final extension, empty when
the last dot is at position 0 (dot-file) or ends the name. -/
def pySuffix (name : String) : String :=
  let cs := name.data
  match ((cs.enum.filter (fun p => p.2 = '.')).map Prod.fst).getLast? with
  | some k => if 0 < k ∧ k + 1 < cs.length then ⟨cs.drop k⟩ else ""
  | none => ""

/-- One iteration of the `for parent in file_path.parents` loop of
`RepositoryScanner._should_include_file`: a parent whose name is in
`ignore_dirs` excludes the file, as does a hidden parent other than the scan
root itself (the Bool flag is `parent == self.root_path`). -/
def parentsCheck (ignore_dirs : List String) : List (String × Bool) → Bool
  | [] => true
  | (nm, isRoot) :: rest =>
    if ignore_dirs.contains nm then false
    else if strStartsWith nm "." && !isRoot then false
    else parentsCheck ignore_dirs rest

/-- The parents of the file's absolute path (the file is `rootParts` then
`relParts`, the last element of `relParts` being the file name), each paired
with whether that parent equals the scan root: the proper ancestors inside
the root path, the scan root itself, the directories between the root and
the file, and finally the filesystem root, whose `Path.name` is the empty
string.  `Path.parents` yields them bottom-up; the order is immaterial to
the conjunctive check. -/
def parentsList (rootParts relParts : List String) : List (String × Bool) :=
  (rootParts.dropLast.map (fun s => (s, false)))
    ++ (match rootParts.getLast? with
        | some r => [(r, true)]
        | none => [])
    ++ (relParts.dropLast.map (fun s => (s, false)))
    ++ [("", rootParts.isEmpty)]

/-- `RepositoryScanner._should_include_file`.  The file is described by the
segments of the resolved scan root (`rootParts`), the segments from the root
down to the file (`relParts`, last = file name), its size, and its binary
flag. -/
def should_include_file (cfg : ScannerConfig) (rootParts relParts : List String)
    (size : Nat) (isBinary : Bool) : Bool :=
  let fileName := relParts.getLastD ""
  parentsCheck cfg.ignore_dirs (parentsList rootParts relParts)
    && cfg.include_extensions.contains (pySuffix fileName)
    && !cfg.ignore_files.contains fileName
    && !(size > cfg.max_file_size)
    && !isBinary

/-- The filter of `scan_project` (`scanner.py`): a candidate's relative path
is kept when none of its parts — the file's own name included — is in
`ignore_dirs`. -/
def scan_project_keeps (ignore_dirs : List String) (relParts : List String) : Bool :=
  relParts.all (fun part => !ignore_dirs.contains part)

/-- `Path.glob("**/*.py")` membership for a relative path. -/
def globMatchesPy (relParts : List String) : Bool :=
  strEndsWith (relParts.getLastD "") ".py"

/-- `scan_project` (`scanner.py`) over an abstract candidate list: the
relative paths of the files below the root, filtered by the glob and the
parts-based ignore rule. -/
def scan_project (ignore_dirs : List String) (candidates : List (List String)) :
    List (List String) :=
  (candidates.filter globMatchesPy).filter (scan_project_keeps ignore_dirs)

/-- An abstract file-system entry: a file (name, size, binary flag) or a
directory with its entries. -/
inductive FSEntry where
  | file (name : String) (size : Nat) (isBinary : Bool) : FSEntry
  | dir (name : String) (entries : List FSEntry) : FSEntry

def FSEntry.name : FSEntry → String
  | .file n _ _ => n
  | .dir n _ => n

/-- `sorted(path.iterdir())`: entries of one directory in name order. -/
def sortEntries (l : List FSEntry) : List FSEntry :=
  List.insertionSort (fun a b => strLe a.name b.name = true) l

/-- `models/schemas.py` `DirectoryNode` (the `path` field is omitted: no
claim consults it). -/
inductive DirectoryNode where
  | node (name : String) (children : List DirectoryNode) (files : List String) : DirectoryNode

def DirectoryNode.name : DirectoryNode → String
  | .node n _ _ => n

def DirectoryNode.children : DirectoryNode → List DirectoryNode
  | .node _ c _ => c

def DirectoryNode.files : DirectoryNode → List String
  | .node _ _ f => f

theorem perm_sizeOf_eq_fsentry {a b : List FSEntry} (h : a.Perm b) :
    sizeOf a = sizeOf b := by
  induction h with
  | nil => rfl
  | cons x _ ih => simp [ih]
  | swap x y l => simp; omega
  | trans _ _ ih1 ih2 => omega

theorem sizeOf_sortEntries (l : List FSEntry) : sizeOf (sortEntries l) = sizeOf l :=
  perm_sizeOf_eq_fsentry (List.perm_insertionSort _ l)

mutual

/-- `RepositoryScanner._build_directory_tree`.  Directory entries are
visited in sorted order; ignored and hidden subdirectories are skipped, and
a child directory is appended only when it contributes files or non-empty
children.  The file branch models the call to the misspelled method
`_should_inculde_file`: the `AttributeError` it raises is swallowed by the
surrounding `except Exception` (logged as "Permission denied"), which
abandons the remaining entries of the current directory, so the node is
returned exactly as accumulated up to the first file entry. -/
def buildDirectoryTree (cfg : ScannerConfig) (dirName : String)
    (entries : List FSEntry) : DirectoryNode :=
  let cf := buildItems cfg (sortEntries entries)
  .node dirName cf.1 cf.2
termination_by sizeOf entries + 1
decreasing_by
  rw [sizeOf_sortEntries]; omega

/-- Processes the sorted entries of one directory, returning the children
and files accumulated before the first exception. -/
def buildItems (cfg : ScannerConfig) : List FSEntry → List DirectoryNode × List String
  | [] => ([], [])
  | .file _ _ _ :: _ => ([], [])
  | .dir d sub :: rest =>
    if cfg.ignore_dirs.contains d || strStartsWith d "." then
      buildItems cfg rest
    else
      let child := buildDirectoryTree cfg d sub
      let restRes := buildItems cfg rest
      if !child.files.isEmpty || !child.children.isEmpty then
        (child :: restRes.1, restRes.2)
      else
        restRes
termination_by l => sizeOf l
decreasing_by
  all_goals simp
  all_goals omega

end

/-- `Path.rglob("*")` restricted to files: every file below the given
entries, as (relative segments, size, binary flag), depth-first. -/
def rglobFiles : List FSEntry → List (List String × Nat × Bool)
  | [] => []
  | .file n sz b :: rest => ([n], sz, b) :: rglobFiles rest
  | .dir d sub :: rest =>
    (rglobFiles sub).map (fun t => (d :: t.1, t.2)) ++ rglobFiles rest

/-- `RepositoryScanner._find_source_files`: the full recursive walk filtered
by `_should_include_file` (this path spells the method correctly). -/
def find_source_files (cfg : ScannerConfig) (rootParts : List String)
    (entries : List FSEntry) : List (List String) :=
  ((rglobFiles entries).filter
    (fun t => should_include_file cfg rootParts t.1 t.2.1 t.2.2)).map Prod.fst

mutual

/-- `RepositoryScanner._count_directories`. -/
def count_directories : DirectoryNode → Nat
  | .node _ children _ => 1 + count_directories_children children

def count_directories_children : List DirectoryNode → Nat
  | [] => 0
  | c :: rest => count_directories c + count_directories_children rest

end

/-- `models/schemas.py` `ProjectStructure` (root path omitted: no claim
consults it). -/
structure ProjectStructure where
  root_node : DirectoryNode
  all_files : List (List String)
  total_files : Nat
  total_directories : Nat

/-- `RepositoryScanner.scan`: builds the tree, independently collects the
flat file list, and bundles the counts. -/
def scan (cfg : ScannerConfig) (rootName : String) (rootParts : List String)
    (entries : List FSEntry) : ProjectStructure :=
  let root_node := buildDirectoryTree cfg rootName entries
  let all_files := find_source_files cfg rootParts entries
  ⟨root_node, all_files, all_files.length, count_directories root_node⟩

/-! ## Hasher and change detector (`core/hasher.py`, `core/change_detector.py`) -/

/-- `FileHasher.hash_files`: the per-file outcome of `hash_file` is supplied
as `hashFn` (`none` models the raised exception); a failing file is caught
and omitted from the mapping. -/
def hashStep (hashFn : String → Option String) (acc : List (String × String))
    (p : String) : List (String × String) :=
  match hashFn p with
  | some h => dictInsert acc p h
  | none => acc

def hash_files (hashFn : String → Option String) (paths : List String) :
    List (String × String) :=
  paths.foldl (hashStep hashFn) []

/-- The stored hash of a tracked file
(`old_hashes = {f: m.hash for f, m in old_metadata.files.items()}`). -/
def storedHashes (md : ProjectMetadata) : List (String × String) :=
  md.files.map (fun p => (p.1, p.2.hash))

/-- The modification loop of `detect_changes` over the files present both
now and before: `current_hashes[file]` raises `KeyError` (modelled `none`)
when the file's hashing failed and it is hence absent from the mapping. -/
def classifyCommon (current_hashes old_hashes : List (String × String)) :
    List String → Option (List String × List String)
  | [] => some ([], [])
  | f :: rest =>
    match dictGet current_hashes f with
    | none => none
    | some ch =>
      match dictGet old_hashes f with
      | none => none
      | some oh =>
        match classifyCommon current_hashes old_hashes rest with
        | none => none
        | some mu =>
          if ch ≠ oh then some (f :: mu.1, mu.2) else some (mu.1, f :: mu.2)

/-- `ChangeDetector.detect_changes`.  `old_metadata` is the result of
`MetadataStore.load()`; `hashFn` gives each file's hashing outcome.  The
overall `none` models the uncaught `KeyError`.  Python's sets are modelled
by deduplicated lists; the iteration order over the intersection is
immaterial: either every lookup succeeds and the four output lists are
sorted, or some lookup raises. -/
def detect_changes (old_metadata : Option ProjectMetadata)
    (hashFn : String → Option String) (current_files : List String) :
    Option ChangeReport :=
  match old_metadata with
  | none => some ⟨current_files, [], [], []⟩
  | some old =>
    let current_hashes := hash_files hashFn current_files
    let old_hashes := storedHashes old
    let current_set := current_files.dedup
    let old_set := (old_hashes.map Prod.fst).dedup
    let added := current_set.filter (fun f => !old_set.contains f)
    let deleted := old_set.filter (fun f => !current_set.contains f)
    let inter := current_set.filter (fun f => old_set.contains f)
    match classifyCommon current_hashes old_hashes inter with
    | none => none
    | some mu =>
      some ⟨sortStrings added, sortStrings mu.1, sortStrings deleted, sortStrings mu.2⟩

/-- The per-file update loop of `update_metadata`: for each analyzed file,
`Path(root / f).stat().st_size` runs first (its failure raises), then
`hashes[f]` (raising `KeyError` when the hashing failed), and the entry is
written over the metadata mapping. -/
def updateFilesLoop (hashes : List (String × String)) (statSize : String → Option Int)
    (now : PyDatetime) (summaries : List (String × ModuleSummary))
    (files : List (String × FileMetadata)) :
    List String → Option (List (String × FileMetadata))
  | [] => some files
  | f :: rest =>
    match statSize f with
    | none => none
    | some sz =>
      match dictGet hashes f with
      | none => none
      | some h =>
        updateFilesLoop hashes statSize now summaries
          (dictInsert files f ⟨f, h, now, sz, dictGet summaries f⟩) rest

/-- `ChangeDetector.update_metadata`: returns the `ProjectMetadata` handed
to `MetadataStore.save` (`none` models an uncaught exception).  `statSize f`
models `Path(root / f).stat().st_size`; the successive `datetime.now()`
calls are modelled by the single timestamp `now` (no claim depends on their
differences). -/
def update_metadata (old_metadata : Option ProjectMetadata)
    (hashFn : String → Option String) (statSize : String → Option Int)
    (now : PyDatetime) (analyzed_files : List String)
    (summaries : List (String × ModuleSummary))
    (project_name project_root : String) : Option ProjectMetadata :=
  let metadata := old_metadata.getD ⟨project_name, project_root, now, []⟩
  let hashes := hash_files hashFn analyzed_files
  match updateFilesLoop hashes statSize now summaries metadata.files analyzed_files with
  | none => none
  | some files1 =>
    let files2 := files1.filter (fun p => analyzed_files.contains p.1)
    some ⟨metadata.project_name, metadata.project_root, now, files2⟩

/-! ## Analyzer (`analyzer.py`, `analyzer_self.py`) -/

def SMALL_MODEL : String := "qwen/qwen3-32b"

def MEDIUM_MODEL : String := "openai/gpt-oss-120b"

def LARGE_MODEL : String := "llama-3.3-70b-versatile"

/-- `CodeAnalyzer._select_model_for_file` (`analyzer.py`). -/
def select_model_for_file (pf : ParsedFile) : String :=
  let total_items := pf.classes.length + pf.functions.length
  if total_items ≤ 5 then SMALL_MODEL
  else if total_items < 15 then MEDIUM_MODEL
  else LARGE_MODEL

/-- `CodeAnalyzer._select_model_for_file` (`analyzer_self.py`). -/
def select_model_for_file_self (pf : ParsedFile) : String :=
  let total_elements := pf.classes.length + pf.functions.length
  if total_elements ≤ 5 then SMALL_MODEL
  else if total_elements ≤ 20 then MEDIUM_MODEL
  else LARGE_MODEL

/-- The model identifier `synthesize_project` passes to `_call_llm`: the
source writes `model=self.LARGE_MODEL` literally. -/
def synthesize_project_model : String := LARGE_MODEL

/-- The response normalization of `CodeAnalyzer._parse_module_response`
(`analyzer.py`): strip, drop a `<think>...</think>` block, strip code
fences. -/
def normalizeResponse (response : String) : String :=
  let cleaned := pyStrip response
  let cleaned :=
    if strContains cleaned "<think>" then
      pyStrip ((strSplit cleaned "</think>").getLastD "")
    else cleaned
  if strStartsWith cleaned "```json" then
    pyStrip (strReplace (strReplace cleaned "```json" "") "```" "")
  else if strStartsWith cleaned "```" then
    pyStrip (strReplace cleaned "```" "")
  else cleaned

/-- `data.get(key, default)` for the string-valued response fields.  The
Python dataclass stores the raw decoded value untyped; a non-string JSON
value is coarsened to the default here — no claim depends on such fields. -/
def getStrField (fields : List (String × Json)) (key dflt : String) : String :=
  match dictGet fields key with
  | some (.str s) => s
  | _ => dflt

/-- `data.get(key, [])` for the list-valued response fields, coarsened to
the string elements. -/
def getStrListField (fields : List (String × Json)) (key : String) : List String :=
  match dictGet fields key with
  | some (.arr es) => es.filterMap jsonAsString
  | _ => []

/-- `CodeAnalyzer._parse_module_response` (`analyzer.py`).  Only
`json.JSONDecodeError` is caught, so a normalized response decoding to a
valid non-object JSON value reaches `data.get` and raises `AttributeError`
(modelled by `Except.error`). -/
def parse_module_response (response : String) (parsed_file : ParsedFile) :
    Except String ModuleSummary :=
  let cleaned := normalizeResponse response
  match jsonLoads cleaned with
  | none =>
    .ok ⟨parsed_file.file_path, "N/A", [], [], parsed_file.imports⟩
  | some (.obj fields) =>
    .ok ⟨parsed_file.file_path, getStrField fields "purpose" "N/A",
         getStrListField fields "responsibilities",
         getStrListField fields "key_components", parsed_file.imports⟩
  | some _ => .error "AttributeError"

/-- `CodeAnalyzer._parse_module_response` (`analyzer_self.py`): no
normalization, sentinel purpose "No purpose provided", same uncaught
`AttributeError` on a valid non-object JSON response. -/
def parse_module_response_self (response : String) (parsed_file : ParsedFile) :
    Except String ModuleSummary :=
  match jsonLoads response with
  | none =>
    .ok ⟨parsed_file.file_path, "No purpose provided", [], [], parsed_file.imports⟩
  | some (.obj fields) =>
    .ok ⟨parsed_file.file_path, getStrField fields "purpose" "No purpose provided",
         getStrListField fields "responsibilities",
         getStrListField fields "key_components", parsed_file.imports⟩
  | some _ => .error "AttributeError"


/-! ## Concrete inputs used by witnesses and counterexamples -/

def pfC5 : ParsedFile := ⟨"module.py", none, ["os", "json"], [], []⟩

def pfC5w : ParsedFile := ⟨"other.py", none, ["sys"], [], []⟩

def mdC2 : ProjectMetadata :=
  ⟨"proj", "/proj", ⟨"2024-01-01T00:00:00"⟩,
   [("a.py", ⟨"a.py", "h1", ⟨"2024-01-01T00:00:00"⟩, 3, none⟩)]⟩

def hashC2 : String → Option String :=
  fun f => if f = "a.py" then some "h2" else some "hx"

def mdC3 : ProjectMetadata :=
  ⟨"proj", "/proj", ⟨"2024-01-01T00:00:00"⟩,
   [("a.py", ⟨"a.py", "h1", ⟨"2024-01-01T00:00:00"⟩, 3, none⟩)]⟩

def hashC3 : String → Option String :=
  fun f => if f = "a.py" then some "h2" else some "hx"

def mdC4 : ProjectMetadata :=
  ⟨"proj", "/proj", ⟨"2024-01-01T00:00:00"⟩,
   [("c.py", ⟨"c.py", "hc", ⟨"2024-01-01T00:00:00"⟩, 1, none⟩)]⟩

def mdC10 : ProjectMetadata :=
  ⟨"proj", "/proj", ⟨"2024-01-01T00:00:00"⟩,
   [("a.py", ⟨"a.py", "h1", ⟨"2024-01-01T00:00:00"⟩, 3, none⟩)]⟩

def hashC10 : String → Option String := fun _ => none

def argsC8 : PyArguments :=
  ⟨[⟨"p1", none⟩, ⟨"p2", none⟩, ⟨"p3", none⟩], ["d1", "d2"],
   some ⟨"args", none⟩, some ⟨"kw", none⟩⟩


/-! ## Supporting lemmas -/

theorem dictGet_isSome_iff_mem_keys {α : Type} (d : List (String × α)) (k : String) :
    (dictGet d k).isSome ↔ k ∈ dictKeys d := by
  induction d with
  | nil => simp [dictGet, dictKeys]
  | cons hd tl ih =>
    obtain ⟨k0, v0⟩ := hd
    simp only [dictGet, dictKeys, List.map_cons, List.mem_cons]
    by_cases h : k0 = k
    · subst h
      simp
    · rw [if_neg h]
      constructor
      · intro hm
        exact Or.inr (by simpa [dictKeys] using ih.mp hm)
      · rintro (rfl | hm)
        · exact absurd rfl h
        · exact ih.mpr (by simpa [dictKeys] using hm)

theorem dictGet_filter {α : Type} (d : List (String × α)) (p : String → Bool) (k : String) :
    dictGet (d.filter (fun e => p e.1)) k = if p k then dictGet d k else none := by
  induction d with
  | nil => simp [dictGet]
  | cons hd tl ih =>
    obtain ⟨k0, v0⟩ := hd
    by_cases h : k0 = k
    · subst h
      by_cases hp : p k0
      · simp [List.filter, hp, dictGet]
      · simp [List.filter, hp, dictGet, ih]
    · by_cases hp : p k0
      · simp [List.filter, hp, dictGet, h, ih]
      · simp [List.filter, hp, dictGet, h, ih]

theorem hash_files_foldl_get (hashFn : String → Option String) (paths : List String)
    (acc : List (String × String)) (f : String) :
    dictGet (paths.foldl (hashStep hashFn) acc) f =
      if f ∈ paths ∧ (hashFn f).isSome then hashFn f else dictGet acc f := by
  induction paths generalizing acc with
  | nil => simp
  | cons p rest ih =>
    simp only [List.foldl_cons]
    rcases hp : hashFn p with _ | h
    · rw [ih]
      simp only [hashStep, hp]
      by_cases hf : f = p
      · subst hf
        simp [hp]
      · simp [List.mem_cons, hf]
    · rw [ih]
      simp only [hashStep, hp]
      by_cases hf : f = p
      · subst hf
        by_cases hfr : f ∈ rest
        · simp [hfr, hp]
        · simp [hfr, hp, dictGet_insert_self]
      · rw [dictGet_insert_ne _ _ _ _ hf]
        simp [List.mem_cons, hf]

theorem hash_files_get (hashFn : String → Option String) (paths : List String) (f : String) :
    dictGet (hash_files hashFn paths) f = if f ∈ paths then hashFn f else none := by
  unfold hash_files
  rw [hash_files_foldl_get]
  by_cases hf : f ∈ paths
  · rcases hs : hashFn f with _ | h
    · simp [hf, hs, dictGet]
    · simp [hf, hs]
  · simp [hf, dictGet]

theorem storedHashes_get (md : ProjectMetadata) (f : String) :
    dictGet (storedHashes md) f = (dictGet md.files f).map FileMetadata.hash := by
  unfold storedHashes
  induction md.files with
  | nil => simp [dictGet]
  | cons hd tl ih =>
    obtain ⟨k0, v0⟩ := hd
    by_cases h : k0 = f
    · subst h; simp [dictGet]
    · simp [dictGet, h, ih]

theorem classifyCommon_some_char (ch oh : List (String × String)) (l : List String)
    (mu : List String × List String) (h : classifyCommon ch oh l = some mu) :
    (∀ f, f ∈ mu.1 ↔ f ∈ l ∧ ∃ c o, dictGet ch f = some c ∧ dictGet oh f = some o ∧ c ≠ o) ∧
    (∀ f, f ∈ mu.2 ↔ f ∈ l ∧ ∃ c, dictGet ch f = some c ∧ dictGet oh f = some c) := by
  induction l generalizing mu with
  | nil =>
    simp only [classifyCommon, Option.some_inj] at h
    subst h
    simp
  | cons f0 rest ih =>
    simp only [classifyCommon] at h
    rcases hc : dictGet ch f0 with _ | c <;> rw [hc] at h <;> dsimp only at h
    · exact absurd h (by simp)
    rcases ho : dictGet oh f0 with _ | o <;> rw [ho] at h <;> dsimp only at h
    · exact absurd h (by simp)
    rcases hr : classifyCommon ch oh rest with _ | mu0 <;> rw [hr] at h <;> dsimp only at h
    · exact absurd h (by simp)
    obtain ⟨ih1, ih2⟩ := ih mu0 hr
    by_cases hne : c ≠ o
    · rw [if_pos hne] at h
      obtain rfl := Option.some_inj.mp h
      constructor
      · intro f
        simp only [List.mem_cons]
        constructor
        · rintro (rfl | hf)
          · exact ⟨Or.inl rfl, c, o, hc, ho, hne⟩
          · obtain ⟨hfl, w⟩ := (ih1 f).mp hf
            exact ⟨Or.inr hfl, w⟩
        · rintro ⟨rfl | hfl, w⟩
          · exact Or.inl rfl
          · exact Or.inr ((ih1 f).mpr ⟨hfl, w⟩)
      · intro f
        simp only [List.mem_cons]
        constructor
        · intro hf
          obtain ⟨hfl, w⟩ := (ih2 f).mp hf
          exact ⟨Or.inr hfl, w⟩
        · rintro ⟨rfl | hfl, w⟩
          · obtain ⟨c1, hc1, ho1⟩ := w
            rw [hc] at hc1
            rw [ho] at ho1
            obtain rfl := Option.some_inj.mp hc1
            obtain rfl := Option.some_inj.mp ho1
            exact absurd rfl hne
          · exact (ih2 f).mpr ⟨hfl, w⟩
    · rw [if_neg hne] at h
      obtain rfl := Option.some_inj.mp h
      push_neg at hne
      subst hne
      constructor
      · intro f
        simp only [List.mem_cons]
        constructor
        · intro hf
          obtain ⟨hfl, w⟩ := (ih1 f).mp hf
          exact ⟨Or.inr hfl, w⟩
        · rintro ⟨rfl | hfl, w⟩
          · obtain ⟨c1, o1, hc1, ho1, hneq⟩ := w
            rw [hc] at hc1
            rw [ho] at ho1
            obtain rfl := Option.some_inj.mp hc1
            obtain rfl := Option.some_inj.mp ho1
            exact absurd rfl hneq
          · exact (ih1 f).mpr ⟨hfl, w⟩
      · intro f
        simp only [List.mem_cons]
        constructor
        · rintro (rfl | hf)
          · exact ⟨Or.inl rfl, c, hc, ho⟩
          · obtain ⟨hfl, w⟩ := (ih2 f).mp hf
            exact ⟨Or.inr hfl, w⟩
        · rintro ⟨rfl | hfl, w⟩
          · exact Or.inl rfl
          · exact Or.inr ((ih2 f).mpr ⟨hfl, w⟩)

theorem classifyCommon_none_of_mem (ch oh : List (String × String)) (l : List String)
    (f : String) (hf : f ∈ l) (hc : dictGet ch f = none) :
    classifyCommon ch oh l = none := by
  induction l with
  | nil => cases hf
  | cons f0 rest ih =>
    simp only [classifyCommon]
    rcases List.mem_cons.mp hf with rfl | hfr
    · rw [hc]
    · rcases hc0 : dictGet ch f0 with _ | c
      · rfl
      rcases ho0 : dictGet oh f0 with _ | o
      · rfl
      rw [ih hfr]

theorem classifyCommon_isSome (ch oh : List (String × String)) (l : List String)
    (h : ∀ f ∈ l, (dictGet ch f).isSome ∧ (dictGet oh f).isSome) :
    (classifyCommon ch oh l).isSome := by
  induction l with
  | nil => simp [classifyCommon]
  | cons f0 rest ih =>
    obtain ⟨hc, ho⟩ := h f0 (List.mem_cons_self f0 rest)
    rcases hc0 : dictGet ch f0 with _ | c
    · rw [hc0] at hc; cases hc
    rcases ho0 : dictGet oh f0 with _ | o
    · rw [ho0] at ho; cases ho
    have ihr := ih (fun f hf => h f (List.mem_cons_of_mem f0 hf))
    rcases hr : classifyCommon ch oh rest with _ | mu
    · rw [hr] at ihr; cases ihr
    simp only [classifyCommon]
    rw [hc0, ho0, hr]
    dsimp only
    by_cases hne : c ≠ o
    · rw [if_pos hne]; rfl
    · rw [if_neg hne]; rfl

theorem updateFilesLoop_char (hashes : List (String × String))
    (statSize : String → Option Int) (now : PyDatetime)
    (summaries : List (String × ModuleSummary)) (l : List String)
    (files : List (String × FileMetadata))
    (hok : ∀ f ∈ l, (statSize f).isSome ∧ (dictGet hashes f).isSome) :
    ∃ files1, updateFilesLoop hashes statSize now summaries files l = some files1 ∧
      (∀ f, f ∉ l → dictGet files1 f = dictGet files f) ∧
      (∀ f, f ∈ l → ∃ sz h, statSize f = some sz ∧ dictGet hashes f = some h ∧
        dictGet files1 f = some ⟨f, h, now, sz, dictGet summaries f⟩) := by
  induction l generalizing files with
  | nil => exact ⟨files, rfl, fun f _ => rfl, fun f hf => absurd hf (List.not_mem_nil f)⟩
  | cons f0 rest ih =>
    obtain ⟨hs0, hh0⟩ := hok f0 (List.mem_cons_self f0 rest)
    rcases hsz : statSize f0 with _ | sz
    · rw [hsz] at hs0; cases hs0
    rcases hh : dictGet hashes f0 with _ | h
    · rw [hh] at hh0; cases hh0
    obtain ⟨files1, heq, hout, hin⟩ :=
      ih (dictInsert files f0 ⟨f0, h, now, sz, dictGet summaries f0⟩)
        (fun f hf => hok f (List.mem_cons_of_mem f0 hf))
    refine ⟨files1, ?_, ?_, ?_⟩
    · simp only [updateFilesLoop]
      rw [hsz, hh]
      exact heq
    · intro f hf
      have hne : f ≠ f0 := fun hc => hf (hc ▸ List.mem_cons_self f0 rest)
      have hfr : f ∉ rest := fun hc => hf (List.mem_cons_of_mem f0 hc)
      rw [hout f hfr, dictGet_insert_ne _ _ _ _ hne]
    · intro f hf
      rcases List.mem_cons.mp hf with rfl | hfr
      · by_cases hfr2 : f ∈ rest
        · exact hin f hfr2
        · refine ⟨sz, h, hsz, hh, ?_⟩
          rw [hout f hfr2, dictGet_insert_self]
      · exact hin f hfr

theorem mapMOption_roundtrip {α β : Type} (g : β → Option α) (h : α → β)
    (hg : ∀ a, g (h a) = some a) (l : List α) :
    mapMOption g (l.map h) = some l := by
  induction l with
  | nil => rfl
  | cons a rest ih =>
    simp only [List.map_cons, mapMOption, hg a, ih]

theorem jsonAsStringList_map_str (l : List String) :
    jsonAsStringList (.arr (l.map .str)) = some l := by
  simp only [jsonAsStringList]
  exact mapMOption_roundtrip jsonAsString Json.str (fun a => rfl) l

theorem moduleSummary_roundtrip (s : ModuleSummary) :
    ModuleSummary.from_dict s.to_dict = some s := by
  obtain ⟨a, b, c, d, e⟩ := s
  simp [ModuleSummary.to_dict, ModuleSummary.from_dict, dictGet, jsonAsString,
    jsonAsStringList_map_str]

theorem fileMetadata_entry_roundtrip (fm : FileMetadata) :
    FileMetadata.entry_from_json fm.entry_to_json = some fm := by
  obtain ⟨fp, h, la, sz, summ⟩ := fm
  cases summ with
  | none => rfl
  | some s =>
    have htr : jsonTruthy s.to_dict = true := by
      simp [ModuleSummary.to_dict, jsonTruthy]
    simp only [FileMetadata.entry_to_json, FileMetadata.entry_from_json]
    simp [dictGet, jsonAsString, jsonAsInt, htr, moduleSummary_roundtrip s]

theorem parentsCheck_true_iff (ignore_dirs : List String) (l : List (String × Bool)) :
    parentsCheck ignore_dirs l = true ↔
      ∀ p ∈ l, ¬ ignore_dirs.contains p.1 ∧ (strStartsWith p.1 "." = true → p.2 = true) := by
  induction l with
  | nil => simp [parentsCheck]
  | cons hd tl ih =>
    obtain ⟨nm, isRoot⟩ := hd
    simp only [parentsCheck]
    by_cases hig : ignore_dirs.contains nm
    · rw [if_pos hig]
      simp only [List.mem_cons]
      constructor
      · intro h; cases h
      · intro hall
        exact absurd hig (hall (nm, isRoot) (Or.inl rfl)).1
    · rw [if_neg hig]
      by_cases hh : strStartsWith nm "." && !isRoot
      · rw [if_pos hh]
        simp only [Bool.and_eq_true, Bool.not_eq_true'] at hh
        simp only [List.mem_cons]
        constructor
        · intro h; cases h
        · intro hall
          have := (hall (nm, isRoot) (Or.inl rfl)).2 hh.1
          rw [hh.2] at this
          cases this
      · rw [if_neg hh, ih]
        simp only [Bool.and_eq_true, Bool.not_eq_true'] at hh
        constructor
        · intro hall p hp
          rcases List.mem_cons.mp hp with rfl | hptl
          · refine ⟨hig, fun hs => ?_⟩
            by_cases hr : isRoot
            · exact hr
            · exact absurd ⟨hs, by simp [hr]⟩ hh
          · exact hall p hptl
        · intro hall p hp
          exact hall p (List.mem_cons_of_mem _ hp)

theorem parentsCheck_parentsList_true (ignore_dirs rootParts relParts : List String)
    (h1 : ∀ seg ∈ rootParts ++ relParts.dropLast, ¬ ignore_dirs.contains seg)
    (h2 : ∀ seg ∈ rootParts.dropLast ++ relParts.dropLast, ¬ strStartsWith seg "." = true)
    (h3 : ¬ ignore_dirs.contains "") :
    parentsCheck ignore_dirs (parentsList rootParts relParts) = true := by
  rw [parentsCheck_true_iff]
  intro p hp
  simp only [parentsList, List.append_assoc, List.mem_append, List.mem_map,
    List.mem_singleton] at hp
  rcases hp with ⟨seg, hseg, rfl⟩ | hp
  · exact ⟨h1 seg (List.mem_append_left _ (List.dropLast_subset _ hseg)),
      fun hs => absurd hs (h2 seg (List.mem_append_left _ hseg))⟩
  rcases hp with hp | hp
  · rcases hlast : rootParts.getLast? with _ | r
    · rw [hlast] at hp
      cases hp
    · rw [hlast] at hp
      rcases List.mem_singleton.mp hp with rfl
      have hrmem : r ∈ rootParts := by
        obtain ⟨hne, heq⟩ := List.mem_getLast?_eq_getLast (Option.mem_def.mpr hlast)
        rw [heq]
        exact List.getLast_mem hne
      exact ⟨h1 r (List.mem_append_left _ hrmem), fun _ => rfl⟩
  rcases hp with ⟨seg, hseg, rfl⟩ | hp
  · exact ⟨h1 seg (List.mem_append_right _ hseg),
      fun hs => absurd hs (h2 seg (List.mem_append_right _ hseg))⟩
  · rcases hp with rfl
    exact ⟨h3, fun hs => by cases hs⟩

theorem parentsCheck_parentsList_false (ignore_dirs rootParts relParts : List String)
    (seg : String) (hseg : seg ∈ relParts.dropLast)
    (hig : ignore_dirs.contains seg) :
    parentsCheck ignore_dirs (parentsList rootParts relParts) = false := by
  rw [Bool.eq_false_iff]
  intro htrue
  have := (parentsCheck_true_iff ignore_dirs (parentsList rootParts relParts)).mp htrue
    (seg, false) (by
      simp only [parentsList, List.append_assoc, List.mem_append, List.mem_map]
      right; right; left
      exact ⟨seg, hseg, rfl⟩)
  exact this.1 hig

/-- Claim C7: deserializing the serialized form of any `ProjectMetadata`
value — with arbitrary nested `FileMetadata` entries, each with or without an
optional `ModuleSummary` — yields the value back field-for-field
(`from_json (to_json M) = M`), given that ISO-8601 timestamp precision is
preserved by the `isoformat`/`fromisoformat` pair (granted by embedding a
datetime as its ISO rendering). -/
theorem c7_metadata_roundtrip (m : ProjectMetadata) :
    ProjectMetadata.from_json m.to_json = some m := by
  obtain ⟨pn, pr, lu, files⟩ := m
  simp only [ProjectMetadata.to_json, ProjectMetadata.from_json]
  simp [dictGet, jsonAsString,
    mapMOption_roundtrip (fun p => (FileMetadata.entry_from_json p.2).map (fun fm => (p.1, fm)))
      (fun p => (p.1, p.2.entry_to_json))
      (fun a => by simp [fileMetadata_entry_roundtrip]) files]

/-! ## Claim theorems -/

/-- Claim C1 (code-bug evidence): scanning a root that directly contains the
single qualifying source file `a.py` (default configuration, root
`/home/proj`) produces a tree whose root node records no files — the tree
builder's call to the misspelled `_should_inculde_file` raises
`AttributeError`, which the broad permission-denied handler swallows — even
though the flat recursive walk of the very same scan does include `a.py`.
The claim describes the intended behavior; the code contradicts it. -/
theorem c1_tree_drops_files :
    (scan defaultScannerConfig "proj" ["home", "proj"]
        [.file "a.py" 10 false]).root_node = .node "proj" [] [] ∧
    (scan defaultScannerConfig "proj" ["home", "proj"]
        [.file "a.py" 10 false]).all_files = [["a.py"]] := by
  constructor
  · simp [scan, buildDirectoryTree, buildItems, sortEntries, List.insertionSort]
  · simp only [scan, find_source_files, rglobFiles]
    rfl

/-- Claim C2 (counterexample): on the first run — no stored metadata — the
added list is returned exactly as passed in, so the input `["b.py", "a.py"]`
yields an added list that is not lexicographically sorted. -/
theorem c2_counterexample :
    detect_changes none (fun _ => none) ["b.py", "a.py"] =
      some ⟨["b.py", "a.py"], [], [], []⟩ ∧
    ¬ List.Sorted strLeProp ["b.py", "a.py"] :=
  ⟨rfl, by decide⟩

/-- Claim C2 (amended): when prior metadata exists, all four lists of the
`ChangeReport` are lexicographically sorted; on the first run the added list
is the input list exactly as given — sorted only when the input already was —
and the other three lists are empty. -/
theorem c2_sorted_after_first_run :
    (∀ (old : ProjectMetadata) (hashFn : String → Option String)
       (files : List String) (r : ChangeReport),
       detect_changes (some old) hashFn files = some r →
       List.Sorted strLeProp r.added_files ∧
       List.Sorted strLeProp r.modified_files ∧
       List.Sorted strLeProp r.deleted_files ∧
       List.Sorted strLeProp r.unchanged_files) ∧
    (∀ (hashFn : String → Option String) (files : List String),
       detect_changes none hashFn files = some ⟨files, [], [], []⟩) := by
  constructor
  · intro old hashFn files r h
    simp only [detect_changes] at h
    split at h
    · cases h
    · obtain rfl := Option.some_inj.mp h
      exact ⟨sortStrings_sorted _, sortStrings_sorted _, sortStrings_sorted _,
        sortStrings_sorted _⟩
  · intro hashFn files
    rfl

/-- Witness for the amended C2 theorem at a concrete second run. -/
theorem c2_sorted_after_first_run_witness :
    List.Sorted strLeProp ["c.py"] ∧ List.Sorted strLeProp ["a.py"] ∧
    List.Sorted strLeProp ([] : List String) ∧
    List.Sorted strLeProp ([] : List String) :=
  c2_sorted_after_first_run.1 mdC2 hashC2 ["a.py", "c.py"]
    ⟨["c.py"], ["a.py"], [], []⟩ rfl

/-- Claim C5 (counterexample): the response `"[1]"` is valid JSON but not an
object; it passes the `json.JSONDecodeError` handler untouched and the
subsequent `data.get` raises `AttributeError`, so module analysis does not
return a `ModuleSummary` for every response string. -/
theorem c5_counterexample :
    parse_module_response "[1]" pfC5 = .error "AttributeError" ∧
    jsonLoads (normalizeResponse "[1]") = some (.arr [.num 1]) :=
  ⟨rfl, rfl⟩

/-- Claim C5 (amended): for every response whose content after normalization
is not valid JSON — including the empty string produced when the service
call fails in `analyzer.py`, and the `"{}"` string returned on failure in
`analyzer_self.py` — module analysis returns the fallback `ModuleSummary`
with the sentinel purpose, empty responsibilities and key components, and
dependencies copied from the parsed file's import list; a response decoding
to a JSON object likewise always yields a `ModuleSummary` whose dependencies
are the file's imports; but a response decoding to a valid non-object JSON
value raises instead of returning. -/
theorem c5_fallback_summary :
    (∀ (response : String) (pf : ParsedFile),
       jsonLoads (normalizeResponse response) = none →
       parse_module_response response pf =
         .ok ⟨pf.file_path, "N/A", [], [], pf.imports⟩) ∧
    (∀ (response : String) (pf : ParsedFile),
       jsonLoads response = none →
       parse_module_response_self response pf =
         .ok ⟨pf.file_path, "No purpose provided", [], [], pf.imports⟩) ∧
    (∀ (response : String) (pf : ParsedFile) (fields : List (String × Json)),
       jsonLoads (normalizeResponse response) = some (.obj fields) →
       parse_module_response response pf =
         .ok ⟨pf.file_path, getStrField fields "purpose" "N/A",
              getStrListField fields "responsibilities",
              getStrListField fields "key_components", pf.imports⟩) ∧
    (∀ pf : ParsedFile,
       parse_module_response "" pf = .ok ⟨pf.file_path, "N/A", [], [], pf.imports⟩) ∧
    (∀ pf : ParsedFile,
       parse_module_response_self "\x7b\x7d" pf =
         .ok ⟨pf.file_path, "No purpose provided", [], [], pf.imports⟩) := by
  refine ⟨?_, ?_, ?_, fun pf => rfl, fun pf => rfl⟩
  · intro response pf h
    simp only [parse_module_response]
    rw [h]
  · intro response pf h
    simp only [parse_module_response_self]
    rw [h]
  · intro response pf fields h
    simp only [parse_module_response]
    rw [h]

/-- Witness for the amended C5 theorem at the spec's own example input. -/
theorem c5_fallback_summary_witness :
    parse_module_response "not json" pfC5w =
      .ok ⟨"other.py", "N/A", [], [], ["sys"]⟩ :=
  c5_fallback_summary.1 "not json" pfC5w rfl

/-- Claim C6 (counterexample): with the ignored name `venv.py`, the glob
candidate literally named `venv.py` at the project root contains the ignored
name as a substring of its own name and has no ancestor directory segment at
all, and yet `scan_project` excludes it — the parts-based filter checks the
file's own name as a path segment too. -/
theorem c6_counterexample :
    globMatchesPy ["venv.py"] = true ∧
    strContains "venv.py" "venv.py" = true ∧
    List.dropLast ["venv.py"] = [] ∧
    scan_project ["venv.py"] [["venv.py"]] = [] :=
  ⟨rfl, rfl, rfl, rfl⟩

/-- Claim C6 (amended): ignore matching is by exact path-segment equality,
never substring containment — but the checked segments are, for
`scan_project`, every part of the relative path including the file's own
name, and, for `RepositoryScanner`, every directory of the absolute path
(those above the scan root included, with non-root hidden directories also
excluding) while the file's own name is not checked against the ignore set.
A file is included whenever no checked segment is ignored (and, for
`RepositoryScanner`, the remaining extension/name/size/binary checks pass);
conversely any file with an ancestor directory segment exactly equal to an
ignored name is excluded by both scanners. -/
theorem c6_segment_exact_matching :
    (∀ (I : List String) (cands : List (List String)) (parts : List String),
       parts ∈ cands → globMatchesPy parts = true →
       (∀ seg ∈ parts, ¬ I.contains seg) →
       parts ∈ scan_project I cands) ∧
    (∀ (I : List String) (cands : List (List String)) (parts : List String)
       (seg : String),
       seg ∈ parts → I.contains seg → parts ∉ scan_project I cands) ∧
    (∀ (cfg : ScannerConfig) (rootParts relParts : List String) (size : Nat),
       (∀ seg ∈ rootParts ++ relParts.dropLast, ¬ cfg.ignore_dirs.contains seg) →
       (∀ seg ∈ rootParts.dropLast ++ relParts.dropLast, ¬ strStartsWith seg "." = true) →
       ¬ cfg.ignore_dirs.contains "" →
       cfg.include_extensions.contains (pySuffix (relParts.getLastD "")) = true →
       ¬ cfg.ignore_files.contains (relParts.getLastD "") →
       size ≤ cfg.max_file_size →
       should_include_file cfg rootParts relParts size false = true) ∧
    (∀ (cfg : ScannerConfig) (rootParts relParts : List String) (size : Nat)
       (isBinary : Bool) (seg : String),
       seg ∈ relParts.dropLast → cfg.ignore_dirs.contains seg →
       should_include_file cfg rootParts relParts size isBinary = false) := by
  refine ⟨?_, ?_, ?_, ?_⟩
  · intro I cands parts hmem hglob hsegs
    simp only [scan_project, List.mem_filter]
    refine ⟨⟨hmem, hglob⟩, ?_⟩
    simp only [scan_project_keeps, List.all_eq_true, Bool.not_eq_true']
    intro seg hseg
    exact Bool.not_eq_true _ ▸ (Bool.of_not_eq_true (hsegs seg hseg))
  · intro I cands parts seg hseg hig hmem
    simp only [scan_project, List.mem_filter, scan_project_keeps,
      List.all_eq_true, Bool.not_eq_true'] at hmem
    rw [hmem.2 seg hseg] at hig
    cases hig
  · intro cfg rootParts relParts size h1 h2 h3 hext hname hsize
    have hpc := parentsCheck_parentsList_true cfg.ignore_dirs rootParts relParts h1 h2 h3
    have hnb : cfg.ignore_files.contains (relParts.getLastD "") = false := by
      simpa using hname
    simp [should_include_file, hpc, hext, hnb,
      decide_eq_false (Nat.not_lt.mpr hsize)]
    exact ⟨by simpa using hext, by simpa using hnb⟩
  · intro cfg rootParts relParts size isBinary seg hseg hig
    simp only [should_include_file,
      parentsCheck_parentsList_false cfg.ignore_dirs rootParts relParts seg hseg hig]
    simp

/-- Witness for the amended C6 theorem at the spec's own examples
(`venvtools.py` included, `venv/util.py` excluded). -/
theorem c6_segment_exact_matching_witness :
    ["venvtools.py"] ∈ scan_project ["venv"] [["venvtools.py"], ["venv", "util.py"]] ∧
    (["venv", "util.py"] ∉ scan_project ["venv"] [["venvtools.py"], ["venv", "util.py"]]) ∧
    should_include_file defaultScannerConfig ["home", "proj"] ["venvtools.py"] 10 false = true ∧
    should_include_file defaultScannerConfig ["home", "proj"] ["venv", "util.py"] 10 false = false :=
  ⟨c6_segment_exact_matching.1 ["venv"] [["venvtools.py"], ["venv", "util.py"]]
      ["venvtools.py"] (by decide) rfl (by decide),
   c6_segment_exact_matching.2.1 ["venv"] [["venvtools.py"], ["venv", "util.py"]]
      ["venv", "util.py"] "venv" (by decide) (by decide),
   c6_segment_exact_matching.2.2.1 defaultScannerConfig ["home", "proj"]
      ["venvtools.py"] 10 (by decide) (by decide) (by decide) (by decide)
      (by decide) (by decide),
   c6_segment_exact_matching.2.2.2 defaultScannerConfig ["home", "proj"]
      ["venv", "util.py"] 10 false "venv" (by decide) (by decide)⟩

/-- Claim C9: both analyzer generations compute the complexity score as
count(classes) + count(top-level functions); `analyzer.py` selects the small
model for score ≤ 5, the medium model for 5 < score < 15 and the large model
for score ≥ 15, while the `analyzer_self.py` variant keeps the medium model
through score ≤ 20 and selects the large model above that; project synthesis
always uses the large model. -/
theorem c9_model_selection :
    (∀ pf : ParsedFile,
       (pf.classes.length + pf.functions.length ≤ 5 ∧
          select_model_for_file pf = SMALL_MODEL) ∨
       (5 < pf.classes.length + pf.functions.length ∧
          pf.classes.length + pf.functions.length < 15 ∧
          select_model_for_file pf = MEDIUM_MODEL) ∨
       (15 ≤ pf.classes.length + pf.functions.length ∧
          select_model_for_file pf = LARGE_MODEL)) ∧
    (∀ pf : ParsedFile,
       (pf.classes.length + pf.functions.length ≤ 5 ∧
          select_model_for_file_self pf = SMALL_MODEL) ∨
       (5 < pf.classes.length + pf.functions.length ∧
          pf.classes.length + pf.functions.length ≤ 20 ∧
          select_model_for_file_self pf = MEDIUM_MODEL) ∨
       (20 < pf.classes.length + pf.functions.length ∧
          select_model_for_file_self pf = LARGE_MODEL)) ∧
    synthesize_project_model = LARGE_MODEL := by
  refine ⟨fun pf => ?_, fun pf => ?_, rfl⟩
  · by_cases h5 : pf.classes.length + pf.functions.length ≤ 5
    · exact Or.inl ⟨h5, by simp [select_model_for_file, h5]⟩
    · by_cases h15 : pf.classes.length + pf.functions.length < 15
      · exact Or.inr (Or.inl ⟨by omega, h15,
          by simp [select_model_for_file, h5, h15]⟩)
      · exact Or.inr (Or.inr ⟨by omega,
          by simp [select_model_for_file, h5, h15]⟩)
  · by_cases h5 : pf.classes.length + pf.functions.length ≤ 5
    · exact Or.inl ⟨h5, by simp [select_model_for_file_self, h5]⟩
    · by_cases h20 : pf.classes.length + pf.functions.length ≤ 20
      · exact Or.inr (Or.inl ⟨by omega, h20,
          by simp [select_model_for_file_self, h5, h20]⟩)
      · exact Or.inr (Or.inr ⟨by omega,
          by simp [select_model_for_file_self, h5, h20]⟩)

theorem dictGet_isSome_iff_exists_mem {α : Type} (d : List (String × α)) (k : String) :
    (dictGet d k).isSome ↔ ∃ v, (k, v) ∈ d := by
  induction d with
  | nil => simp [dictGet]
  | cons hd tl ih =>
    obtain ⟨k0, v0⟩ := hd
    by_cases h : k0 = k
    · subst h
      simp [dictGet]
    · simp only [dictGet, if_neg h, List.mem_cons, ih]
      constructor
      · rintro ⟨v, hv⟩
        exact ⟨v, Or.inr hv⟩
      · rintro ⟨v, hv | hv⟩
        · cases hv
          exact absurd rfl h
        · exact ⟨v, hv⟩

theorem dictGet_eq_none_iff_forall_not_mem {α : Type} (d : List (String × α)) (k : String) :
    dictGet d k = none ↔ ∀ v, (k, v) ∉ d := by
  rw [← Option.not_isSome_iff_eq_none, dictGet_isSome_iff_exists_mem]
  push_neg
  rfl

theorem classifyCommon_some_lookups (ch oh : List (String × String))
    (l : List String) (mu : List String × List String)
    (h : classifyCommon ch oh l = some mu) :
    ∀ f ∈ l, (dictGet ch f).isSome ∧ (dictGet oh f).isSome := by
  induction l generalizing mu with
  | nil => intro f hf; cases hf
  | cons f0 rest ih =>
    simp only [classifyCommon] at h
    rcases hc : dictGet ch f0 with _ | c <;> rw [hc] at h <;> dsimp only at h
    · cases h
    rcases ho : dictGet oh f0 with _ | o <;> rw [ho] at h <;> dsimp only at h
    · cases h
    rcases hr : classifyCommon ch oh rest with _ | mu0 <;> rw [hr] at h <;> dsimp only at h
    · cases h
    intro f hf
    rcases List.mem_cons.mp hf with rfl | hfr
    · exact ⟨by rw [hc]; rfl, by rw [ho]; rfl⟩
    · exact ih mu0 hr f hfr

/-- Claim C3: with no stored metadata every current file is reported added
and the other three lists are empty; otherwise a file present both in the
current list and in the stored metadata is modified exactly when its fresh
hash differs from the stored hash and unchanged exactly when they agree, a
file present only in the current list is added, a file present only in the
stored metadata is deleted, and the four lists cover the union of the two
file sets while being pairwise disjoint — they partition the union. -/
theorem c3_change_classification :
    (∀ (hashFn : String → Option String) (files : List String),
       detect_changes none hashFn files = some ⟨files, [], [], []⟩) ∧
    (∀ (old : ProjectMetadata) (hashFn : String → Option String)
       (files : List String) (r : ChangeReport),
       detect_changes (some old) hashFn files = some r →
       ((∀ f, f ∈ r.added_files ↔ f ∈ files ∧ dictGet (storedHashes old) f = none) ∧
        (∀ f, f ∈ r.deleted_files ↔
           (dictGet (storedHashes old) f).isSome ∧ f ∉ files) ∧
        (∀ f, f ∈ r.modified_files ↔ f ∈ files ∧ ∃ c o, hashFn f = some c ∧
           dictGet (storedHashes old) f = some o ∧ c ≠ o) ∧
        (∀ f, f ∈ r.unchanged_files ↔ f ∈ files ∧ ∃ c, hashFn f = some c ∧
           dictGet (storedHashes old) f = some c) ∧
        (∀ f, (f ∈ files ∨ (dictGet (storedHashes old) f).isSome) ↔
           (f ∈ r.added_files ∨ f ∈ r.modified_files ∨ f ∈ r.deleted_files ∨
            f ∈ r.unchanged_files)) ∧
        (∀ f, (f ∈ r.added_files → f ∉ r.modified_files ∧ f ∉ r.deleted_files ∧
            f ∉ r.unchanged_files) ∧
          (f ∈ r.modified_files → f ∉ r.deleted_files ∧ f ∉ r.unchanged_files) ∧
          (f ∈ r.deleted_files → f ∉ r.unchanged_files)))) := by
  constructor
  · intro hashFn files
    rfl
  · intro old hashFn files r h
    simp only [detect_changes] at h
    split at h
    · cases h
    · rename_i mu heq
      obtain rfl := Option.some_inj.mp h
      obtain ⟨hmod, hunch⟩ := classifyCommon_some_char _ _ _ _ heq
      have hlook := classifyCommon_some_lookups _ _ _ _ heq
      have hold : ∀ f : String,
          ((((storedHashes old).map Prod.fst).dedup).contains f = true) ↔
            (dictGet (storedHashes old) f).isSome := by
        intro f
        rw [dictGet_isSome_iff_mem_keys]
        simp [dictKeys, List.mem_dedup]
      have hinter : ∀ f : String,
          (f ∈ (files.dedup).filter
              (fun f => (((storedHashes old).map Prod.fst).dedup).contains f)) ↔
            (f ∈ files ∧ (dictGet (storedHashes old) f).isSome) := by
        intro f
        rw [List.mem_filter]
        simp [List.mem_dedup, hold f]
        intro _
        exact (dictGet_isSome_iff_exists_mem _ f).symm
      have hadd : ∀ f, f ∈ sortStrings ((files.dedup).filter
            (fun f => !(((storedHashes old).map Prod.fst).dedup).contains f)) ↔
          f ∈ files ∧ dictGet (storedHashes old) f = none := by
        intro f
        rw [mem_sortStrings, List.mem_filter]
        simp [List.mem_dedup, hold f, Option.not_isSome_iff_eq_none]
        intro _
        exact (dictGet_eq_none_iff_forall_not_mem _ f).symm
      have hdel : ∀ f, f ∈ sortStrings (((((storedHashes old).map Prod.fst).dedup)).filter
            (fun f => !(files.dedup).contains f)) ↔
          (dictGet (storedHashes old) f).isSome ∧ f ∉ files := by
        intro f
        rw [mem_sortStrings, List.mem_filter]
        rw [dictGet_isSome_iff_mem_keys]
        simp [List.mem_dedup, dictKeys]
      have hmod2 : ∀ f, f ∈ sortStrings mu.1 ↔
          f ∈ files ∧ ∃ c o, hashFn f = some c ∧
            dictGet (storedHashes old) f = some o ∧ c ≠ o := by
        intro f
        rw [mem_sortStrings, hmod f]
        constructor
        · rintro ⟨hfi, c, o, hc, ho, hne⟩
          obtain ⟨hff, _⟩ := (hinter f).mp hfi
          rw [hash_files_get, if_pos hff] at hc
          exact ⟨hff, c, o, hc, ho, hne⟩
        · rintro ⟨hff, c, o, hc, ho, hne⟩
          refine ⟨(hinter f).mpr ⟨hff, Option.isSome_iff_exists.mpr ⟨o, ho⟩⟩,
            c, o, ?_, ho, hne⟩
          rw [hash_files_get, if_pos hff]
          exact hc
      have hunch2 : ∀ f, f ∈ sortStrings mu.2 ↔
          f ∈ files ∧ ∃ c, hashFn f = some c ∧
            dictGet (storedHashes old) f = some c := by
        intro f
        rw [mem_sortStrings, hunch f]
        constructor
        · rintro ⟨hfi, c, hc, ho⟩
          obtain ⟨hff, _⟩ := (hinter f).mp hfi
          rw [hash_files_get, if_pos hff] at hc
          exact ⟨hff, c, hc, ho⟩
        · rintro ⟨hff, c, hc, ho⟩
          refine ⟨(hinter f).mpr ⟨hff, Option.isSome_iff_exists.mpr ⟨c, ho⟩⟩,
            c, ?_, ho⟩
          rw [hash_files_get, if_pos hff]
          exact hc
      refine ⟨hadd, hdel, hmod2, hunch2, ?_, ?_⟩
      · intro f
        constructor
        · intro hf
          by_cases hsome : (dictGet (storedHashes old) f).isSome
          · by_cases hff : f ∈ files
            · obtain ⟨hchS, _⟩ := hlook f ((hinter f).mpr ⟨hff, hsome⟩)
              rw [hash_files_get, if_pos hff] at hchS
              obtain ⟨c, hc⟩ := Option.isSome_iff_exists.mp hchS
              obtain ⟨o, ho⟩ := Option.isSome_iff_exists.mp hsome
              by_cases hco : c = o
              · subst hco
                exact Or.inr (Or.inr (Or.inr ((hunch2 f).mpr ⟨hff, c, hc, ho⟩)))
              · exact Or.inr (Or.inl ((hmod2 f).mpr ⟨hff, c, o, hc, ho, hco⟩))
            · exact Or.inr (Or.inr (Or.inl ((hdel f).mpr ⟨hsome, hff⟩)))
          · rcases hf with hff | hsome2
            · exact Or.inl ((hadd f).mpr
                ⟨hff, Option.not_isSome_iff_eq_none.mp hsome⟩)
            · exact absurd hsome2 hsome
        · rintro (hf | hf | hf | hf)
          · exact Or.inl ((hadd f).mp hf).1
          · exact Or.inl ((hmod2 f).mp hf).1
          · exact Or.inr ((hdel f).mp hf).1
          · exact Or.inl ((hunch2 f).mp hf).1
      · intro f
        refine ⟨?_, ?_, ?_⟩
        · intro hf
          obtain ⟨hff, hnone⟩ := (hadd f).mp hf
          refine ⟨?_, ?_, ?_⟩
          · intro hm
            obtain ⟨_, c, o, _, ho, _⟩ := (hmod2 f).mp hm
            rw [hnone] at ho
            cases ho
          · intro hd
            exact ((hdel f).mp hd).2 hff
          · intro hu
            obtain ⟨_, c, _, ho⟩ := (hunch2 f).mp hu
            rw [hnone] at ho
            cases ho
        · intro hm
          obtain ⟨hff, c, o, hc, ho, hne⟩ := (hmod2 f).mp hm
          refine ⟨?_, ?_⟩
          · intro hd
            exact ((hdel f).mp hd).2 hff
          · intro hu
            obtain ⟨_, c2, hc2, ho2⟩ := (hunch2 f).mp hu
            rw [hc] at hc2
            obtain rfl := Option.some_inj.mp hc2
            rw [ho2] at ho
            exact hne (Option.some_inj.mp ho)
        · intro hd hu
          exact ((hdel f).mp hd).2 ((hunch2 f).mp hu).1

/-- Witness for the C3 theorem at a concrete second run: `c.py` is reported
added exactly because it is current but untracked. -/
theorem c3_change_classification_witness :
    "c.py" ∈ (["c.py"] : List String) ↔
      "c.py" ∈ ["a.py", "c.py"] ∧ dictGet (storedHashes mdC3) "c.py" = none :=
  (c3_change_classification.2 mdC3 hashC3 ["a.py", "c.py"]
    ⟨["c.py"], ["a.py"], [], []⟩ rfl).1 "c.py"

/-- Claim C4: after `update_metadata(analyzed_files, summaries,
project_name)` — whether or not prior metadata existed — the persisted
mapping's key set is exactly the set of paths in `analyzed_files`: every
analyzed file gets a fresh entry carrying its newly computed hash and the
matching summary when one was supplied, and every previously tracked path
not in `analyzed_files` is pruned.  The hypothesis says stat and hashing
succeed on the analyzed files (otherwise the call raises; compare C10). -/
theorem c4_update_metadata_exact
    (old_metadata : Option ProjectMetadata) (hashFn : String → Option String)
    (statSize : String → Option Int) (now : PyDatetime)
    (analyzed_files : List String) (summaries : List (String × ModuleSummary))
    (project_name project_root : String)
    (hok : ∀ f ∈ analyzed_files, (statSize f).isSome ∧ (hashFn f).isSome) :
    ∃ md, update_metadata old_metadata hashFn statSize now analyzed_files
        summaries project_name project_root = some md ∧
      (∀ f, (dictGet md.files f).isSome ↔ f ∈ analyzed_files) ∧
      (∀ f, f ∈ analyzed_files → ∃ hv sz, hashFn f = some hv ∧ statSize f = some sz ∧
        dictGet md.files f = some ⟨f, hv, now, sz, dictGet summaries f⟩) ∧
      (∀ f, f ∉ analyzed_files → dictGet md.files f = none) := by
  have hok2 : ∀ f ∈ analyzed_files,
      (statSize f).isSome ∧ (dictGet (hash_files hashFn analyzed_files) f).isSome := by
    intro f hf
    refine ⟨(hok f hf).1, ?_⟩
    rw [hash_files_get, if_pos hf]
    exact (hok f hf).2
  obtain ⟨files1, heq, hout, hin⟩ :=
    updateFilesLoop_char (hash_files hashFn analyzed_files) statSize now summaries
      analyzed_files (old_metadata.getD ⟨project_name, project_root, now, []⟩).files hok2
  refine ⟨⟨(old_metadata.getD ⟨project_name, project_root, now, []⟩).project_name,
      (old_metadata.getD ⟨project_name, project_root, now, []⟩).project_root, now,
      files1.filter (fun p => analyzed_files.contains p.1)⟩, ?_, ?_, ?_, ?_⟩
  · simp only [update_metadata]
    rw [heq]
  · intro f
    show (dictGet (files1.filter fun p => analyzed_files.contains p.1) f).isSome ↔ _
    rw [dictGet_filter]
    by_cases hf : f ∈ analyzed_files
    · rw [if_pos (show analyzed_files.contains f = true by simpa using hf)]
      obtain ⟨sz, hv, _, _, hget⟩ := hin f hf
      simp [hget, hf]
    · rw [if_neg (show ¬ analyzed_files.contains f = true by simpa using hf)]
      simp [hf]
  · intro f hf
    obtain ⟨sz, hv, hsz, hh, hget⟩ := hin f hf
    rw [hash_files_get, if_pos hf] at hh
    refine ⟨hv, sz, hh, hsz, ?_⟩
    show dictGet (files1.filter fun p => analyzed_files.contains p.1) f = _
    rw [dictGet_filter, if_pos (show analyzed_files.contains f = true by simpa using hf)]
    exact hget
  · intro f hf
    show dictGet (files1.filter fun p => analyzed_files.contains p.1) f = none
    rw [dictGet_filter, if_neg (show ¬ analyzed_files.contains f = true by simpa using hf)]

/-- Witness for the C4 theorem at a concrete call that prunes the
previously tracked `c.py` while writing a fresh entry for `a.py`. -/
theorem c4_update_metadata_exact_witness :
    ∃ md, update_metadata (some mdC4) (fun _ => some "h2") (fun _ => some 5)
        ⟨"2024-01-02T00:00:00"⟩ ["a.py"] [] "proj" "/proj" = some md ∧
      (∀ f, (dictGet md.files f).isSome ↔ f ∈ ["a.py"]) ∧
      (∀ f, f ∈ ["a.py"] → ∃ hv sz, (fun (_ : String) => some "h2") f = some hv ∧
        (fun (_ : String) => some (5 : Int)) f = some sz ∧
        dictGet md.files f =
          some ⟨f, hv, ⟨"2024-01-02T00:00:00"⟩, sz, dictGet [] f⟩) ∧
      (∀ f, f ∉ ["a.py"] → dictGet md.files f = none) :=
  c4_update_metadata_exact (some mdC4) (fun _ => some "h2") (fun _ => some 5)
    ⟨"2024-01-02T00:00:00"⟩ ["a.py"] [] "proj" "/proj"
    (fun _ _ => ⟨rfl, rfl⟩)

/-- Claim C10: `detect_changes` is total only under the precondition that
every file present both in the current list and in the stored metadata
hashes successfully.  `hash_files` silently omits a file whose hashing
failed, and the unguarded `current_hashes[file]` lookup then raises an
uncaught `KeyError`; when the precondition holds the call returns a report. -/
theorem c10_detect_changes_keyerror :
    (∀ (old : ProjectMetadata) (hashFn : String → Option String)
       (files : List String) (f : String),
       f ∈ files → (dictGet (storedHashes old) f).isSome → hashFn f = none →
       detect_changes (some old) hashFn files = none ∧
       dictGet (hash_files hashFn files) f = none) ∧
    (∀ (old : ProjectMetadata) (hashFn : String → Option String)
       (files : List String),
       (∀ f ∈ files, (dictGet (storedHashes old) f).isSome → (hashFn f).isSome) →
       (detect_changes (some old) hashFn files).isSome) := by
  constructor
  · intro old hashFn files f hf hsome hnone
    have hch : dictGet (hash_files hashFn files) f = none := by
      rw [hash_files_get, if_pos hf, hnone]
    refine ⟨?_, hch⟩
    have hfin : f ∈ (files.dedup).filter
        (fun g => (((storedHashes old).map Prod.fst).dedup).contains g) := by
      rw [List.mem_filter]
      refine ⟨List.mem_dedup.mpr hf, ?_⟩
      have hmk : f ∈ dictKeys (storedHashes old) :=
        (dictGet_isSome_iff_mem_keys _ _).mp hsome
      simp only [dictKeys] at hmk
      simpa [List.mem_dedup] using hmk
    simp only [detect_changes]
    rw [classifyCommon_none_of_mem (hash_files hashFn files) (storedHashes old)
      _ f hfin hch]
  · intro old hashFn files hpre
    simp only [detect_changes]
    have hall : ∀ f ∈ (files.dedup).filter
        (fun g => (((storedHashes old).map Prod.fst).dedup).contains g),
        (dictGet (hash_files hashFn files) f).isSome ∧
        (dictGet (storedHashes old) f).isSome := by
      intro f hfin
      rw [List.mem_filter] at hfin
      have hff : f ∈ files := List.mem_dedup.mp hfin.1
      have hsome : (dictGet (storedHashes old) f).isSome := by
        rw [dictGet_isSome_iff_mem_keys]
        simpa [dictKeys, List.mem_dedup] using hfin.2
      refine ⟨?_, hsome⟩
      rw [hash_files_get, if_pos hff]
      exact hpre f hff hsome
    obtain ⟨mu, hmu⟩ :=
      Option.isSome_iff_exists.mp (classifyCommon_isSome _ _ _ hall)
    rw [hmu]
    rfl

/-- Witness for the C10 theorem: the single tracked current file `a.py`
fails to hash, and `detect_changes` raises instead of recovering. -/
theorem c10_detect_changes_keyerror_witness :
    detect_changes (some mdC10) hashC10 ["a.py"] = none ∧
    dictGet (hash_files hashC10 ["a.py"]) "a.py" = none :=
  c10_detect_changes_keyerror.1 mdC10 hashC10 ["a.py"] "a.py" (by decide) rfl rfl

/-- Claim C8: for a function with P positional parameters and D ≤ P default
expressions, the parser leaves the first P−D positional parameters without a
default, assigns the D defaults to the last D positional parameters in
order, and appends the variadic-positional and variadic-keyword parameters
last with names prefixed by `*` and `**` respectively. -/
theorem c8_parameter_defaults (a : PyArguments)
    (hD : a.defaults.length ≤ a.args.length) :
    ((extract_parameters a).length =
        a.args.length
          + (match a.vararg with | some _ => 1 | none => 0)
          + (match a.kwarg with | some _ => 1 | none => 0)) ∧
    (∀ i, i < a.args.length →
       (extract_parameters a).getD i ⟨"", none, none⟩ =
         ⟨(a.args.getD i ⟨"", none⟩).arg, (a.args.getD i ⟨"", none⟩).annot,
          if i < a.args.length - a.defaults.length then none
          else some (a.defaults.getD (i - (a.args.length - a.defaults.length)) "")⟩) ∧
    ((extract_parameters a).drop a.args.length =
       (match a.vararg with
        | some va => [⟨"*" ++ va.arg, va.annot, none⟩]
        | none => []) ++
       (match a.kwarg with
        | some kw => [⟨"**" ++ kw.arg, kw.annot, none⟩]
        | none => [])) := by
  refine ⟨?_, ?_, ?_⟩
  · rcases hva : a.vararg with _ | va <;> rcases hkw : a.kwarg with _ | kw <;>
      simp [extract_parameters, hva, hkw, List.enum_length]
  · intro i hi
    simp only [extract_parameters]
    rw [List.getD_eq_getElem?_getD, List.append_assoc, List.getElem?_append,
      if_pos (show i < (List.map _ a.args.enum).length by
        simpa [List.enum_length] using hi)]
    rw [List.getElem?_map, List.getElem?_enum, List.getElem?_eq_getElem hi,
      Option.map_some', Option.map_some', Option.getD_some]
    rw [List.getD_eq_getElem a.args _ hi]
    have hname : ∀ x : PyArg, (Parameter.mk x.arg x.annot
        (if 0 ≤ (i : Int) - ((a.args.length : Int) - (a.defaults.length : Int)) ∧
            (i : Int) - ((a.args.length : Int) - (a.defaults.length : Int)) <
              (a.defaults.length : Int)
         then some (a.defaults.getD
            ((i : Int) - ((a.args.length : Int) - (a.defaults.length : Int))).toNat "")
         else none)) =
        (Parameter.mk x.arg x.annot
          (if i < a.args.length - a.defaults.length then none
           else some (a.defaults.getD (i - (a.args.length - a.defaults.length)) ""))) := by
      intro x
      congr 1
      by_cases hc : i < a.args.length - a.defaults.length
      · rw [if_pos hc, if_neg (by omega)]
      · rw [if_neg hc, if_pos (by constructor <;> omega)]
        have ht : ((i : Int) -
            ((a.args.length : Int) - (a.defaults.length : Int))).toNat =
            i - (a.args.length - a.defaults.length) := by omega
        rw [ht]
    exact hname a.args[i]
  · simp only [extract_parameters, List.append_assoc]
    rw [List.drop_left' (by simp [List.enum_length])]

/-- Witness for the C8 theorem at the spec's own example: positional
parameters `[p1, p2, p3]` with defaults `[d1, d2]`, plus `*args`/`**kw`. -/
theorem c8_parameter_defaults_witness :
    (extract_parameters argsC8).getD 0 ⟨"", none, none⟩ = ⟨"p1", none, none⟩ ∧
    (extract_parameters argsC8).getD 1 ⟨"", none, none⟩ = ⟨"p2", none, some "d1"⟩ ∧
    (extract_parameters argsC8).getD 2 ⟨"", none, none⟩ = ⟨"p3", none, some "d2"⟩ ∧
    (extract_parameters argsC8).drop 3 =
      [⟨"*args", none, none⟩, ⟨"**kw", none, none⟩] :=
  ⟨(c8_parameter_defaults argsC8 (by decide)).2.1 0 (by decide),
   (c8_parameter_defaults argsC8 (by decide)).2.1 1 (by decide),
   (c8_parameter_defaults argsC8 (by decide)).2.1 2 (by decide),
   (c8_parameter_defaults argsC8 (by decide)).2.2⟩
